import Mathlib

/-!
Verification of the SmartMatrix background layer
(`src/src/Layer_Background_Impl.h`, class `SMLayerBackground<RGB, optionFlags>`).

The development shallowly embeds the parts of the source that the checked
properties are about:

* the double-buffer swap controller (`begin`, `swapBuffers`,
  `handleBufferSwap`, `isSwapPending`);
* the per-scanline compositor (`fillRefreshRow`, both the `rgb48[]` and the
  `rgb24[]` overloads) together with the color-correction LUT indexing;
* the coordinate rotation mapper and the drawing primitives (`drawPixel`,
  `readPixel`, `drawFastHLine`, `drawHardwareHLine`, `drawHardwareVLine`,
  `loadPixelToDrawBuffer`, `readPixelFromDrawBuffer`).

Machine integers are modelled as `Nat`/`Int`; C `double` arithmetic of the
compositor is modelled over `ℚ` (exact in every case a theorem relies on),
with the C `double -> unsigned` conversion modelled as floor (the values are
nonnegative).  Pointers into the two `backgroundBuffers` are modelled as the
index (`Fin 2`) of the buffer they alias; flat pixel memory is a function
from the linear index used by the source (`hwy * matrixWidth + hwx`).

The pixel struct operators (`rgb24`/`rgb48` constructors, `operator==`,
assignment conversions, the `double` blend operators) live outside the
provided source tree; they are modelled from the spec where indicated.
-/

/-- A pixel value: a triple of red, green, blue channel values.  Channel
width (8-bit narrow vs. 16-bit wide) is tracked by the constructors below,
not by the type. -/
structure Pix where
  red : Nat
  green : Nat
  blue : Nat
deriving DecidableEq, Repr

/-- Modelled from the spec (the `rgb48` channel constructor is outside the
provided sources): the `rgb48(r, g, b)` constructor stores each channel in a
16-bit field, truncating to the channel width. -/
def rgb48Of (r g b : Nat) : Pix :=
  ⟨r % 65536, g % 65536, b % 65536⟩

/-- Modelled from the spec (the `rgb24` channel constructor is outside the
provided sources): the `rgb24(r, g, b)` constructor stores each channel in an
8-bit field, truncating to the channel width. -/
def rgb24Of (r g b : Nat) : Pix :=
  ⟨r % 256, g % 256, b % 256⟩

/-- The zero pixel `(RGB){0, 0, 0}` returned by `readPixel` out of bounds. -/
def zeroPix : Pix := ⟨0, 0, 0⟩

/-! ## Swap controller state (`SMLayerBackground` buffer bookkeeping)

`backgroundBuffers` is the two-element array of frame buffers; each buffer is
flat pixel memory indexed linearly.  `currentDrawBufferPtr` /
`currentRefreshBufferPtr` are `RGB *` pointers that always alias one of the
two buffers; a pointer is modelled as the index of the buffer it points at. -/

structure SwapState (α : Type) where
  matrixWidth : Nat
  matrixHeight : Nat
  backgroundBuffers : Fin 2 → Nat → α
  currentDrawBuffer : Fin 2
  currentRefreshBuffer : Fin 2
  currentDrawBufferPtr : Fin 2
  currentRefreshBufferPtr : Fin 2
  swapPending : Bool

/-- The buffer bookkeeping established by `begin()` (lines 74-80):
`currentDrawBuffer = 0`, `currentRefreshBuffer = 1`, `swapPending = false`,
`currentDrawBufferPtr = backgroundBuffers[0]`,
`currentRefreshBufferPtr = backgroundBuffers[1]`. -/
def beginState (α : Type) (width height : Nat) (bufs : Fin 2 → Nat → α) : SwapState α :=
  { matrixWidth := width
    matrixHeight := height
    backgroundBuffers := bufs
    currentDrawBuffer := 0
    currentRefreshBuffer := 1
    currentDrawBufferPtr := 0
    currentRefreshBufferPtr := 1
    swapPending := false }

/-- `handleBufferSwap()` (lines 1005-1019): a no-op unless `swapPending`;
otherwise exchanges the two role indices, repoints both pointers at the
buffers now holding their roles, and clears `swapPending`. -/
def handleBufferSwap (s : SwapState α) : SwapState α :=
  if !s.swapPending then s
  else
    let newDrawBuffer := s.currentRefreshBuffer
    { s with
      currentRefreshBuffer := s.currentDrawBuffer
      currentDrawBuffer := newDrawBuffer
      currentRefreshBufferPtr := s.currentDrawBuffer
      currentDrawBufferPtr := newDrawBuffer
      swapPending := false }

/-- The flag-setting action of `swapBuffers` (line 1027): `swapPending = true`.
The preceding `while (swapPending);` spin is represented by the hypothesis
`swapPending = false` on the theorems that use this. -/
def requestSwap (s : SwapState α) : SwapState α :=
  { s with swapPending := true }

/-- `memcpy(backgroundBuffers[dst], backgroundBuffers[src],
sizeof(RGB) * (matrixWidth * matrixHeight))`: copies the first
`matrixWidth * matrixHeight` pixels of buffer `src` over buffer `dst`. -/
def memcpyBuffer (s : SwapState α) (dst src : Fin 2) : SwapState α :=
  { s with
    backgroundBuffers := fun b =>
      if b = dst then
        fun j => if j < s.matrixWidth * s.matrixHeight then s.backgroundBuffers src j
                 else s.backgroundBuffers dst j
      else s.backgroundBuffers b }

/-- The copy step of `swapBuffers(true)` (lines 1033-1036), which runs after
the refresh context has cleared `swapPending`: if `currentDrawBuffer` is
nonzero copy buffer 0 over buffer 1, else copy buffer 1 over buffer 0 (the
workaround reading the freshly swapped role index). -/
def swapBuffersCopyStep (s : SwapState α) : SwapState α :=
  if s.currentDrawBuffer = 1 then memcpyBuffer s 1 0 else memcpyBuffer s 0 1

/-- `swapBuffers(true)` run to completion (lines 1023-1049): the request, the
refresh-tick `handleBufferSwap()` the second spin waits for, then the copy. -/
def swapBuffersWithCopy (s : SwapState α) : SwapState α :=
  swapBuffersCopyStep (handleBufferSwap (requestSwap s))

/-- `loadPixelToDrawBuffer(hwx, hwy, color)` restricted to the buffer level
(lines 256-259): writes `color` at linear index `idx` of the buffer aliased
by `currentDrawBufferPtr`. -/
def loadPixelLinear (s : SwapState α) (idx : Nat) (color : α) : SwapState α :=
  { s with
    backgroundBuffers := fun b =>
      if b = s.currentDrawBufferPtr then Function.update (s.backgroundBuffers b) idx color
      else s.backgroundBuffers b }

/-- The cross-context operations acting on the swap state: an application
`swapBuffers(false)` request, a refresh-tick `handleBufferSwap()`, and a full
`swapBuffers(true)`. -/
inductive SwapOp where
  | request
  | tick
  | requestCopy
deriving DecidableEq, Repr

/-- Apply one swap-controller operation. -/
def applySwapOp (s : SwapState α) : SwapOp → SwapState α
  | SwapOp.request => requestSwap s
  | SwapOp.tick => handleBufferSwap s
  | SwapOp.requestCopy => swapBuffersWithCopy s

/-- Run a sequence of swap-controller operations. -/
def runSwapOps (s : SwapState α) (ops : List SwapOp) : SwapState α :=
  ops.foldl applySwapOp s

/-! ## Color-correction LUT indexing (`fillRefreshRow`, lines 135-148 /
205-216, and the allocation in `begin()`, line 68) -/

/-- LUT index for a narrow (8-bit-per-channel, `sizeof(RGB) <= 3`) source
channel: `channel << brightnessShifts`. -/
def lutIndexNarrow (channel brightnessShifts : Nat) : Nat :=
  channel <<< brightnessShifts

/-- LUT index for a wide (16-bit-per-channel) source channel:
`channel >> (4 - brightnessShifts)`. -/
def lutIndexWide (channel brightnessShifts : Nat) : Nat :=
  channel >>> (4 - brightnessShifts)

/-- Narrow-pixel LUT entry count, from `begin()`:
`sizeof(RGB) <= 3 ? 256 : 4096`. -/
def narrowLUTSize : Nat := 256

/-- Wide-pixel LUT entry count, from `begin()`. -/
def wideLUTSize : Nat := 4096

/-! ## Per-scanline compositor (`fillRefreshRow`, both overloads)

`double` blend arithmetic is modelled over `ℚ`.  Every theorem below that
looks through a blend does so only at `backgroundBrightness = 255`, where the
IEEE-754 `double` computation (multiply by `0.0` and `1.0`, add `0.0`, divide
by `1.0` on integer-valued operands below `2^53`) is exact, so the `ℚ` model
agrees with the C code bit-for-bit there. -/

/-- Layer configuration read by `fillRefreshRow`.  `lut` is
`backgroundColorCorrectionLUT`; `narrowSource` is `sizeof(RGB) <= 3`;
`chromaKeyEnabled`, `chromaKeyColor` model the trivial accessors
`isChromaKeyEnabled()` / `getChromaKeyColor()` (outside the provided
sources; modelled from the spec's Chroma Key State). -/
structure BGConfig where
  matrixWidth : Nat
  backgroundBrightness : Nat
  ccEnabled : Bool
  chromaKeyEnabled : Bool
  chromaKeyColor : Pix
  firstOverlayLine : Nat
  lastOverlayLine : Nat
  lut : Nat → Nat
  narrowSource : Bool

/-- `brightLower = (255.0 - backgroundBrightness) / 255.0`. -/
def brightLower (brightness : Nat) : ℚ :=
  (255 - (brightness : ℚ)) / 255

/-- `brightUpper = backgroundBrightness / 255.0`. -/
def brightUpper (brightness : Nat) : ℚ :=
  (brightness : ℚ) / 255

/-- Modelled from the spec: the C `double` to unsigned channel conversion
truncates; on the nonnegative values that occur this is the floor. -/
def truncQ (q : ℚ) : Nat := ⌊q⌋.toNat

/-- One channel of `refreshRow[i] * brightLower + newPixel * brightUpper`
(the blend without the normalizing division). -/
def blendChan (brightness oldc newc : Nat) : Nat :=
  truncQ ((oldc : ℚ) * brightLower brightness + (newc : ℚ) * brightUpper brightness)

/-- One channel of `(refreshRow[i] * brightLower + newPixel * brightUpper) /
(brightLower + brightUpper)` (the color-corrected path of the `rgb48[]`
overload). -/
def blendChanDiv (brightness oldc newc : Nat) : Nat :=
  truncQ (((oldc : ℚ) * brightLower brightness + (newc : ℚ) * brightUpper brightness)
    / (brightLower brightness + brightUpper brightness))

/-- Per-pixel blend without division, channelwise. -/
def blendPix (brightness : Nat) (oldp newp : Pix) : Pix :=
  ⟨blendChan brightness oldp.red newp.red,
   blendChan brightness oldp.green newp.green,
   blendChan brightness oldp.blue newp.blue⟩

/-- Per-pixel blend with the normalizing division, channelwise. -/
def blendPixDiv (brightness : Nat) (oldp newp : Pix) : Pix :=
  ⟨blendChanDiv brightness oldp.red newp.red,
   blendChanDiv brightness oldp.green newp.green,
   blendChanDiv brightness oldp.blue newp.blue⟩

/-- Modelled from the spec: assigning a 16-bit-per-channel pixel value to an
8-bit-per-channel `rgb24` destination keeps the high byte of each channel
(truncation to the destination channel width on the internal 16-bit scale). -/
def to24 (p : Pix) : Pix :=
  ⟨p.red >>> 8, p.green >>> 8, p.blue >>> 8⟩

/-- `newPixel` on the color-corrected path (identical in both overloads):
narrow sources index the LUT with `channel << brightnessShifts`, wide sources
with `channel >> (4 - brightnessShifts)`.  The value is built with the
`rgb48` constructor but assigned to the variable `RGB newPixel` (lines 134,
205), which has the layer's source pixel type: on a narrow layer
(`RGB = rgb24`) the 16-bit LUT output is therefore narrowed to 8-bit
channels before it is ever blended or stored. -/
def newPixelCC (cfg : BGConfig) (shifts : Nat) (cur : Pix) : Pix :=
  if cfg.narrowSource then
    to24 (rgb48Of (cfg.lut (lutIndexNarrow cur.red shifts))
            (cfg.lut (lutIndexNarrow cur.green shifts))
            (cfg.lut (lutIndexNarrow cur.blue shifts)))
  else
    rgb48Of (cfg.lut (lutIndexWide cur.red shifts))
            (cfg.lut (lutIndexWide cur.green shifts))
            (cfg.lut (lutIndexWide cur.blue shifts))

/-- `newPixel` on the uncorrected path (identical in both overloads): each
channel is `channel << brightnessShifts`, built with the `rgb24` constructor
for narrow sources and the `rgb48` constructor for wide sources. -/
def newPixelNoCC (cfg : BGConfig) (shifts : Nat) (cur : Pix) : Pix :=
  if cfg.narrowSource then
    rgb24Of (cur.red <<< shifts) (cur.green <<< shifts) (cur.blue <<< shifts)
  else
    rgb48Of (cur.red <<< shifts) (cur.green <<< shifts) (cur.blue <<< shifts)

/-- `fillRefreshRow(uint16_t hardwareY, rgb48 refreshRow[], int
brightnessShifts)` (lines 110-178).  `refreshBuf` is the flat memory aliased
by `currentRefreshBufferPtr`; `refreshRow` is the caller-supplied output row,
updated in place (the loop touches exactly the entries `i < matrixWidth`, so
it is modelled pointwise).  `newPixel` carries the source pixel type, so the
color-corrected value entering the blend is the one `newPixelCC` yields
(narrowed on narrow layers). -/
def fillRefreshRow48 (cfg : BGConfig) (hardwareY : Nat) (refreshBuf : Nat → Pix)
    (refreshRow : Nat → Pix) (brightnessShifts : Nat) : Nat → Pix :=
  if cfg.backgroundBrightness = 0 then refreshRow
  else if cfg.chromaKeyEnabled ∧
      (hardwareY < cfg.firstOverlayLine ∨ hardwareY > cfg.lastOverlayLine) then refreshRow
  else fun i =>
    if i < cfg.matrixWidth then
      let currentPixel := refreshBuf (hardwareY * cfg.matrixWidth + i)
      if cfg.chromaKeyEnabled ∧ currentPixel = cfg.chromaKeyColor then refreshRow i
      else if cfg.ccEnabled then
        blendPixDiv cfg.backgroundBrightness (refreshRow i) (newPixelCC cfg brightnessShifts currentPixel)
      else
        blendPix cfg.backgroundBrightness (refreshRow i) (newPixelNoCC cfg brightnessShifts currentPixel)
    else refreshRow i

/-- `fillRefreshRow(uint16_t hardwareY, rgb24 refreshRow[], int
brightnessShifts)` (lines 181-249).  `newPixel` carries the source pixel
type (`RGB newPixel;`, line 205): on a narrow layer it is already 8-bit and
is stored (or blended) directly; on a wide layer the 16-bit value narrows
with `to24` when stored into the `rgb24` row.  The
`backgroundBrightness == 255` case assigns `newPixel` with no blend. -/
def fillRefreshRow24 (cfg : BGConfig) (hardwareY : Nat) (refreshBuf : Nat → Pix)
    (refreshRow : Nat → Pix) (brightnessShifts : Nat) : Nat → Pix :=
  if cfg.backgroundBrightness = 0 then refreshRow
  else if cfg.chromaKeyEnabled ∧
      (hardwareY < cfg.firstOverlayLine ∨ hardwareY > cfg.lastOverlayLine) then refreshRow
  else fun i =>
    if i < cfg.matrixWidth then
      let currentPixel := refreshBuf (hardwareY * cfg.matrixWidth + i)
      if cfg.chromaKeyEnabled ∧ currentPixel = cfg.chromaKeyColor then refreshRow i
      else
        let newPixel := if cfg.ccEnabled then newPixelCC cfg brightnessShifts currentPixel
                        else newPixelNoCC cfg brightnessShifts currentPixel
        if cfg.backgroundBrightness = 255 then
          if cfg.narrowSource then newPixel else to24 newPixel
        else
          if cfg.narrowSource then blendPix cfg.backgroundBrightness (refreshRow i) newPixel
          else to24 (blendPix cfg.backgroundBrightness (refreshRow i) newPixel)
    else refreshRow i

/-! ## Rotation mapper and drawing primitives

Coordinates are C `int`/`int16_t` values, modelled as `Int`.  The draw buffer
is the flat memory aliased by `currentDrawBufferPtr`, indexed by the linear
offset `hwy * matrixWidth + hwx` that `loadPixelToDrawBuffer` /
`readPixelFromDrawBuffer` compute; the model keeps the whole `Int`-indexed
address space so that both sides of an equivalence perform identical
accesses even when the source would index outside the allocation. -/

/-- `rotationDegrees` as used by `layerRotation`. -/
inductive RotationMode where
  | rotation0
  | rotation90
  | rotation180
  | rotation270
deriving DecidableEq, Repr

/-- The drawing-side state of the layer: dimensions, rotation, and the draw
buffer (`currentDrawBufferPtr` memory). -/
@[ext]
structure DrawLayer where
  matrixWidth : Nat
  matrixHeight : Nat
  localWidth : Nat
  localHeight : Nat
  layerRotation : RotationMode
  drawBuffer : Int → Pix

/-- The logical-to-hardware coordinate mapping.  This exact block appears
verbatim in both `drawPixel` (lines 276-288) and `readPixel` (lines
1087-1099); it is factored out here once and used by both embeddings. -/
def rotateCoords (layer : DrawLayer) (x y : Int) : Int × Int :=
  match layer.layerRotation with
  | RotationMode.rotation0 => (x, y)
  | RotationMode.rotation180 =>
      ((layer.matrixWidth : Int) - 1 - x, (layer.matrixHeight : Int) - 1 - y)
  | RotationMode.rotation90 =>
      ((layer.matrixWidth : Int) - 1 - y, x)
  | RotationMode.rotation270 =>
      (y, (layer.matrixHeight : Int) - 1 - x)

/-- Modelled from the spec: the inverse direction of the rotation mapping
("mapping the logical coordinate to the physical coordinate and back"). -/
def unrotateCoords (layer : DrawLayer) (hw : Int × Int) : Int × Int :=
  match layer.layerRotation with
  | RotationMode.rotation0 => hw
  | RotationMode.rotation180 =>
      ((layer.matrixWidth : Int) - 1 - hw.1, (layer.matrixHeight : Int) - 1 - hw.2)
  | RotationMode.rotation90 =>
      (hw.2, (layer.matrixWidth : Int) - 1 - hw.1)
  | RotationMode.rotation270 =>
      ((layer.matrixHeight : Int) - 1 - hw.2, hw.1)

/-- `loadPixelToDrawBuffer(hwx, hwy, color)` (lines 256-259):
`currentDrawBufferPtr[(hwy * matrixWidth) + hwx] = color`. -/
def loadPixelToDrawBuffer (layer : DrawLayer) (hwx hwy : Int) (color : Pix) : DrawLayer :=
  { layer with
    drawBuffer := Function.update layer.drawBuffer (hwy * (layer.matrixWidth : Int) + hwx) color }

/-- `readPixelFromDrawBuffer(hwx, hwy)` (lines 261-265). -/
def readPixelFromDrawBuffer (layer : DrawLayer) (hwx hwy : Int) : Pix :=
  layer.drawBuffer (hwy * (layer.matrixWidth : Int) + hwx)

/-- `drawPixel(x, y, color)` (lines 268-291): out-of-bounds logical
coordinates are a no-op; otherwise the coordinate is rotated and the pixel
stored through `loadPixelToDrawBuffer`. -/
def drawPixel (layer : DrawLayer) (x y : Int) (color : Pix) : DrawLayer :=
  if x < 0 ∨ y < 0 ∨ x ≥ (layer.localWidth : Int) ∨ y ≥ (layer.localHeight : Int) then layer
  else
    let hw := rotateCoords layer x y
    loadPixelToDrawBuffer layer hw.1 hw.2 color

/-- `readPixel(x, y)` (lines 1078-1102): out-of-bounds logical coordinates
return the zero pixel; otherwise the same rotation block as `drawPixel` maps
the coordinate and the pixel is read from the draw buffer. -/
def readPixel (layer : DrawLayer) (x y : Int) : Pix :=
  if x < 0 ∨ y < 0 ∨ x ≥ (layer.localWidth : Int) ∨ y ≥ (layer.localHeight : Int) then zeroPix
  else
    let hw := rotateCoords layer x y
    readPixelFromDrawBuffer layer hw.1 hw.2

/-- `intRangeAux a n` is the list `a, a+1, ..., a+n-1` (the unrolling of a
counting loop of `n` iterations starting at `a`). -/
def intRangeAux (a : Int) : Nat → List Int
  | 0 => []
  | n + 1 => a :: intRangeAux (a + 1) n

/-- The inclusive integer range `[a, b]` traversed by the `for (i = a; i <= b;
i++)` loops (empty when `b < a`). -/
def intRange (a b : Int) : List Int :=
  intRangeAux a (b + 1 - a).toNat

/-- `drawHardwareHLine(x0, x1, y, color)` (lines 294-301): stores `color` at
hardware columns `x0..x1` of hardware row `y`. -/
def drawHardwareHLine (layer : DrawLayer) (x0 x1 y : Int) (color : Pix) : DrawLayer :=
  (intRange x0 x1).foldl (fun s i => loadPixelToDrawBuffer s i y color) layer

/-- `drawHardwareVLine(x, y0, y1, color)` (lines 304-311): stores `color` at
hardware rows `y0..y1` of hardware column `x`. -/
def drawHardwareVLine (layer : DrawLayer) (x y0 y1 : Int) (color : Pix) : DrawLayer :=
  (intRange y0 y1).foldl (fun s i => loadPixelToDrawBuffer s x i color) layer

/-- The rotation dispatch at the end of `drawFastHLine` (lines 330-339),
taking the already sorted and clipped endpoints `x0 <= x1`. -/
def drawFastHLineClipped (layer : DrawLayer) (x0 x1 y : Int) (color : Pix) : DrawLayer :=
  match layer.layerRotation with
  | RotationMode.rotation0 => drawHardwareHLine layer x0 x1 y color
  | RotationMode.rotation180 =>
      drawHardwareHLine layer ((layer.matrixWidth : Int) - 1 - x1)
        ((layer.matrixWidth : Int) - 1 - x0) ((layer.matrixHeight : Int) - 1 - y) color
  | RotationMode.rotation90 =>
      drawHardwareVLine layer ((layer.matrixWidth : Int) - 1 - y) x0 x1 color
  | RotationMode.rotation270 =>
      drawHardwareVLine layer y ((layer.matrixHeight : Int) - 1 - x1)
        ((layer.matrixHeight : Int) - 1 - x0) color

/-- The body of `drawFastHLine` after the `SWAPint` endpoint sort (lines
319-339), taking `x0 <= x1`: reject fully out-of-bounds lines (lines
320-321), truncate to `[0, localWidth)` (lines 324-328), dispatch on the
rotation. -/
def drawFastHLineSorted (layer : DrawLayer) (x0 x1 y : Int) (color : Pix) : DrawLayer :=
  if x1 < 0 ∨ x0 ≥ (layer.localWidth : Int) ∨ y < 0 ∨ y ≥ (layer.localHeight : Int) then layer
  else
    drawFastHLineClipped layer (if x0 < 0 then 0 else x0)
      (if x1 ≥ (layer.localWidth : Int) then (layer.localWidth : Int) - 1 else x1) y color

/-- `drawFastHLine(x0, x1, y, color)` (lines 313-340): the initial
`if (x1 < x0) SWAPint(x1, x0)` means the rest of the function runs on the
sorted endpoints. -/
def drawFastHLine (layer : DrawLayer) (x0 x1 y : Int) (color : Pix) : DrawLayer :=
  if x1 < x0 then drawFastHLineSorted layer x1 x0 y color
  else drawFastHLineSorted layer x0 x1 y color

/-- The reference behaviour claim C10 compares against: `drawPixel(x, y,
color)` for every `x` from `min(x0, x1)` to `max(x0, x1)`. -/
def drawPixelRange (layer : DrawLayer) (x0 x1 y : Int) (color : Pix) : DrawLayer :=
  (intRange (min x0 x1) (max x0 x1)).foldl (fun s x => drawPixel s x y color) layer

/-! ## Theorems -/

/-- Shared helper: the copy step touches only buffer contents, never the
role indices. -/
theorem swapBuffersCopyStep_roles (s : SwapState α) :
    (swapBuffersCopyStep s).currentDrawBuffer = s.currentDrawBuffer ∧
    (swapBuffersCopyStep s).currentRefreshBuffer = s.currentRefreshBuffer := by
  unfold swapBuffersCopyStep memcpyBuffer
  split <;> exact ⟨rfl, rfl⟩

/-- Shared helper: one swap-controller operation preserves distinctness of
the draw and refresh role indices. -/
theorem applySwapOp_preserves_role_ne (s : SwapState α) (op : SwapOp)
    (h : s.currentDrawBuffer ≠ s.currentRefreshBuffer) :
    (applySwapOp s op).currentDrawBuffer ≠ (applySwapOp s op).currentRefreshBuffer := by
  have tick : ∀ t : SwapState α, t.currentDrawBuffer ≠ t.currentRefreshBuffer →
      (handleBufferSwap t).currentDrawBuffer ≠ (handleBufferSwap t).currentRefreshBuffer := by
    intro t ht
    unfold handleBufferSwap
    cases hp : t.swapPending with
    | false => simpa using ht
    | true => simpa using ht.symm
  cases op with
  | request => exact h
  | tick => exact tick s h
  | requestCopy =>
      show (swapBuffersCopyStep _).currentDrawBuffer ≠ (swapBuffersCopyStep _).currentRefreshBuffer
      rw [(swapBuffersCopyStep_roles _).1, (swapBuffersCopyStep_roles _).2]
      exact tick (requestSwap s) h

/-- C2: starting from the state `begin()` establishes, any sequence of
`swapBuffers` requests and `handleBufferSwap` ticks keeps
`currentDrawBuffer` and `currentRefreshBuffer` distinct indices of `{0, 1}`,
so exactly one buffer holds each role at every instant between calls. -/
theorem role_invariant_all_sequences (α : Type) (width height : Nat)
    (bufs : Fin 2 → Nat → α) (ops : List SwapOp) :
    (runSwapOps (beginState α width height bufs) ops).currentDrawBuffer ≠
      (runSwapOps (beginState α width height bufs) ops).currentRefreshBuffer := by
  have key : ∀ (l : List SwapOp) (s : SwapState α),
      s.currentDrawBuffer ≠ s.currentRefreshBuffer →
      (runSwapOps s l).currentDrawBuffer ≠ (runSwapOps s l).currentRefreshBuffer := by
    intro l
    induction l with
    | nil => intro s h; exact h
    | cons op rest ih =>
        intro s h
        exact ih (applySwapOp s op) (applySwapOp_preserves_role_ne s op h)
  exact key ops (beginState α width height bufs)
    (by show (0 : Fin 2) ≠ (1 : Fin 2); decide)

/-- C1: from any state with no swap pending and with `currentDrawBufferPtr`
aliasing `backgroundBuffers[currentDrawBuffer]`, `swapBuffers(false)`
followed by one `handleBufferSwap()` exchanges the draw and refresh roles,
leaves both pointer variables aliasing the buffers now holding their roles,
and every pixel value written into the draw buffer before the swap is
readable, unchanged, through the refresh buffer pointer after the swap. -/
theorem swap_exchanges_roles_and_preserves_pixels (α : Type) (s : SwapState α)
    (hpend : s.swapPending = false)
    (hptr : s.currentDrawBufferPtr = s.currentDrawBuffer) :
    (handleBufferSwap (requestSwap s)).currentDrawBuffer = s.currentRefreshBuffer ∧
    (handleBufferSwap (requestSwap s)).currentRefreshBuffer = s.currentDrawBuffer ∧
    (handleBufferSwap (requestSwap s)).currentDrawBufferPtr =
      (handleBufferSwap (requestSwap s)).currentDrawBuffer ∧
    (handleBufferSwap (requestSwap s)).currentRefreshBufferPtr =
      (handleBufferSwap (requestSwap s)).currentRefreshBuffer ∧
    (∀ j, (handleBufferSwap (requestSwap s)).backgroundBuffers
        (handleBufferSwap (requestSwap s)).currentRefreshBufferPtr j =
          s.backgroundBuffers s.currentDrawBuffer j) ∧
    ∀ idx color,
      (handleBufferSwap (requestSwap (loadPixelLinear s idx color))).backgroundBuffers
        (handleBufferSwap (requestSwap (loadPixelLinear s idx color))).currentRefreshBufferPtr
          idx = color := by
  refine ⟨?_, ?_, ?_, ?_, ?_, ?_⟩ <;>
    simp [handleBufferSwap, requestSwap, loadPixelLinear, hptr]

/-- Witness for C1 at a concrete 2×2 layer state. -/
theorem swap_exchanges_roles_and_preserves_pixels_witness :
    (handleBufferSwap (requestSwap (beginState Nat 2 2 fun _ _ => 0))).currentDrawBuffer = 1 ∧
    (handleBufferSwap (requestSwap (beginState Nat 2 2 fun _ _ => 0))).currentRefreshBuffer = 0 ∧
    (handleBufferSwap (requestSwap
        (loadPixelLinear (beginState Nat 2 2 fun _ _ => 0) 3 99))).backgroundBuffers
      (handleBufferSwap (requestSwap
        (loadPixelLinear (beginState Nat 2 2 fun _ _ => 0) 3 99))).currentRefreshBufferPtr
        3 = 99 := by
  have h := swap_exchanges_roles_and_preserves_pixels Nat
    (beginState Nat 2 2 fun _ _ => 0) rfl rfl
  exact ⟨h.1, h.2.1, h.2.2.2.2.2 3 99⟩

/-- C3: after `swapBuffers(true)` completes (request, the refresh-tick swap,
then the copy), the buffer now holding the draw role is identical on every
in-range pixel to the buffer now holding the refresh role, and the new
refresh buffer still holds the pre-swap draw contents, so the copy read from
the post-swap roles. -/
theorem copy_swap_draw_identical_to_refresh (α : Type) (s : SwapState α)
    (hpend : s.swapPending = false)
    (hne : s.currentDrawBuffer ≠ s.currentRefreshBuffer) :
    (∀ j, j < s.matrixWidth * s.matrixHeight →
      (swapBuffersWithCopy s).backgroundBuffers (swapBuffersWithCopy s).currentDrawBuffer j =
        (swapBuffersWithCopy s).backgroundBuffers
          (swapBuffersWithCopy s).currentRefreshBuffer j) ∧
    (∀ j, (swapBuffersWithCopy s).backgroundBuffers
        (swapBuffersWithCopy s).currentRefreshBuffer j =
          s.backgroundBuffers s.currentDrawBuffer j) ∧
    (swapBuffersWithCopy s).currentDrawBuffer = s.currentRefreshBuffer ∧
    (swapBuffersWithCopy s).currentRefreshBuffer = s.currentDrawBuffer := by
  have htwo : ∀ b : Fin 2, b = 0 ∨ b = 1 := by decide
  rcases htwo s.currentDrawBuffer with hd | hd <;>
    rcases htwo s.currentRefreshBuffer with hr | hr
  · exact absurd (hd.trans hr.symm) hne
  · refine ⟨fun j hj => ?_, fun j => ?_, ?_, ?_⟩ <;>
      simp [swapBuffersWithCopy, swapBuffersCopyStep, memcpyBuffer,
        handleBufferSwap, requestSwap, hd, hr, *]
  · refine ⟨fun j hj => ?_, fun j => ?_, ?_, ?_⟩ <;>
      simp [swapBuffersWithCopy, swapBuffersCopyStep, memcpyBuffer,
        handleBufferSwap, requestSwap, hd, hr, *]
  · exact absurd (hd.trans hr.symm) hne

/-- Witness for C3 at a concrete 2×2 layer state. -/
theorem copy_swap_draw_identical_to_refresh_witness :
    (swapBuffersWithCopy (beginState Nat 2 2 fun b j => if b = 0 then j else 9)).backgroundBuffers
      (swapBuffersWithCopy (beginState Nat 2 2 fun b j => if b = 0 then j else 9)).currentDrawBuffer
        2 =
    (swapBuffersWithCopy (beginState Nat 2 2 fun b j => if b = 0 then j else 9)).backgroundBuffers
      (swapBuffersWithCopy (beginState Nat 2 2 fun b j => if b = 0 then j else 9)).currentRefreshBuffer
        2 ∧
    (swapBuffersWithCopy (beginState Nat 2 2 fun b j => if b = 0 then j else 9)).currentDrawBuffer
      = 1 := by
  have h := copy_swap_draw_identical_to_refresh Nat
    (beginState Nat 2 2 fun b j => if b = 0 then j else 9) rfl (by decide)
  exact ⟨h.1 2 (by decide), h.2.2.1⟩

/-- C4 counterexample: the claimed bound fails inside the claimed domain.
For a narrow channel value 128 with `brightnessShift = 1` the LUT index is
`128 << 1 = 256`, outside the 256-entry narrow table; for a wide channel
value 65535 with `brightnessShift = 4` the index is `65535 >> 0 = 65535`,
outside the 4096-entry wide table. -/
theorem lut_index_bounds_counterexample :
    ¬ (lutIndexNarrow 128 1 < narrowLUTSize) ∧
    ¬ (lutIndexWide 65535 4 < wideLUTSize) := by
  decide

/-- C4 amended: with `brightnessShift = 0` the LUT index stays within the
table bounds for every channel value of the source domain (narrow:
`channel << 0 = channel < 256`; wide: `channel >> 4 ≤ 4095 < 4096`); for
shifts in `[1, 4]` in-domain channel values can index past the 256-entry
narrow table (up to 4080, which would still fit a 4096-entry table) and past
the 4096-entry wide table (up to 65535). -/
theorem lut_index_bounds_amended :
    (∀ channel, channel ≤ 255 → lutIndexNarrow channel 0 < narrowLUTSize) ∧
    (∀ channel, channel ≤ 65535 → lutIndexWide channel 0 < wideLUTSize) ∧
    (∀ channel shifts, channel ≤ 255 → shifts ≤ 4 →
      lutIndexNarrow channel shifts ≤ 4080) := by
  refine ⟨?_, ?_, ?_⟩
  · intro channel h
    simpa [lutIndexNarrow, narrowLUTSize] using Nat.lt_succ_of_le h
  · intro channel h
    have : channel >>> 4 = channel / 16 := Nat.shiftRight_eq_div_pow channel 4
    simp only [lutIndexWide, wideLUTSize, Nat.sub_zero, this]
    omega
  · intro channel shifts hc hs
    have hpow : (2 : Nat) ^ shifts ≤ 16 := by
      calc (2 : Nat) ^ shifts ≤ 2 ^ 4 := Nat.pow_le_pow_right (by omega) hs
      _ = 16 := by norm_num
    have : lutIndexNarrow channel shifts = channel * 2 ^ shifts :=
      Nat.shiftLeft_eq channel shifts
    rw [this]
    calc channel * 2 ^ shifts ≤ 255 * 16 := Nat.mul_le_mul hc hpow
    _ = 4080 := by norm_num

/-- Witness for the amended C4 at concrete channel values. -/
theorem lut_index_bounds_amended_witness :
    lutIndexNarrow 255 0 < narrowLUTSize ∧
    lutIndexWide 65535 0 < wideLUTSize ∧
    lutIndexNarrow 255 4 ≤ 4080 := by
  exact ⟨lut_index_bounds_amended.1 255 (by decide),
    lut_index_bounds_amended.2.1 65535 (by decide),
    lut_index_bounds_amended.2.2 255 4 (by decide) (by decide)⟩

/-- Shared helper: at full brightness the undivided blend is exactly the new
channel value (`brightLower = 0`, `brightUpper = 1`, floor of an integer). -/
theorem blendChan_full (oldc newc : Nat) : blendChan 255 oldc newc = newc := by
  unfold blendChan brightLower brightUpper truncQ
  norm_num

/-- Shared helper: at full brightness the divided blend is exactly the new
channel value. -/
theorem blendChanDiv_full (oldc newc : Nat) : blendChanDiv 255 oldc newc = newc := by
  unfold blendChanDiv brightLower brightUpper truncQ
  norm_num

/-- Shared helper: pixelwise version of `blendChan_full`. -/
theorem blendPix_full (oldp newp : Pix) : blendPix 255 oldp newp = newp := by
  simp [blendPix, blendChan_full]

/-- Shared helper: pixelwise version of `blendChanDiv_full`. -/
theorem blendPixDiv_full (oldp newp : Pix) : blendPixDiv 255 oldp newp = newp := by
  simp [blendPixDiv, blendChanDiv_full]

/-- Shared helper: with color correction off, zero shift and in-width
channels, `newPixel` is the source pixel unchanged (narrow source). -/
theorem newPixelNoCC_id_narrow (cfg : BGConfig) (cur : Pix)
    (hn : cfg.narrowSource = true) (hr : cur.red ≤ 255) (hg : cur.green ≤ 255)
    (hb : cur.blue ≤ 255) : newPixelNoCC cfg 0 cur = cur := by
  simp [newPixelNoCC, hn, rgb24Of, Nat.shiftLeft_zero, Nat.mod_eq_of_lt (by omega : cur.red < 256),
    Nat.mod_eq_of_lt (by omega : cur.green < 256), Nat.mod_eq_of_lt (by omega : cur.blue < 256)]

/-- Shared helper: with color correction off, zero shift and in-width
channels, `newPixel` is the source pixel unchanged (wide source). -/
theorem newPixelNoCC_id_wide (cfg : BGConfig) (cur : Pix)
    (hn : cfg.narrowSource = false) (hr : cur.red ≤ 65535) (hg : cur.green ≤ 65535)
    (hb : cur.blue ≤ 65535) : newPixelNoCC cfg 0 cur = cur := by
  simp [newPixelNoCC, hn, rgb48Of, Nat.shiftLeft_zero, Nat.mod_eq_of_lt (by omega : cur.red < 65536),
    Nat.mod_eq_of_lt (by omega : cur.green < 65536), Nat.mod_eq_of_lt (by omega : cur.blue < 65536)]

/-- C9: with `backgroundBrightness == 0` both `fillRefreshRow` overloads
return immediately and leave the output row identical to its input. -/
theorem brightness_zero_leaves_row (cfg : BGConfig) (hardwareY : Nat)
    (refreshBuf refreshRow : Nat → Pix) (brightnessShifts : Nat)
    (hb : cfg.backgroundBrightness = 0) :
    fillRefreshRow48 cfg hardwareY refreshBuf refreshRow brightnessShifts = refreshRow ∧
    fillRefreshRow24 cfg hardwareY refreshBuf refreshRow brightnessShifts = refreshRow := by
  constructor
  · unfold fillRefreshRow48
    rw [if_pos hb]
  · unfold fillRefreshRow24
    rw [if_pos hb]

/-- Witness for C9 on a concrete configuration and rows. -/
theorem brightness_zero_leaves_row_witness :
    fillRefreshRow48
      { matrixWidth := 4, backgroundBrightness := 0, ccEnabled := true,
        chromaKeyEnabled := false, chromaKeyColor := zeroPix, firstOverlayLine := 0,
        lastOverlayLine := 100, lut := fun j => j, narrowSource := true }
      2 (fun _ => ⟨1, 2, 3⟩) (fun j => ⟨j, 5, 6⟩) 1 = (fun j => ⟨j, 5, 6⟩) := by
  exact (brightness_zero_leaves_row _ 2 (fun _ => ⟨1, 2, 3⟩) (fun j => ⟨j, 5, 6⟩) 1 rfl).1

/-- C6: with chroma keying enabled, a source pixel equal to the key color
leaves its output entry unchanged in both overloads, and a `hardwareY`
outside `[firstOverlayLine, lastOverlayLine]` leaves the whole output row
unchanged in both overloads. -/
theorem chroma_key_transparent_and_line_bail (cfg : BGConfig) (hardwareY : Nat)
    (refreshBuf refreshRow : Nat → Pix) (brightnessShifts : Nat)
    (hchroma : cfg.chromaKeyEnabled = true) :
    (∀ i, refreshBuf (hardwareY * cfg.matrixWidth + i) = cfg.chromaKeyColor →
      fillRefreshRow48 cfg hardwareY refreshBuf refreshRow brightnessShifts i = refreshRow i) ∧
    (∀ i, refreshBuf (hardwareY * cfg.matrixWidth + i) = cfg.chromaKeyColor →
      fillRefreshRow24 cfg hardwareY refreshBuf refreshRow brightnessShifts i = refreshRow i) ∧
    (hardwareY < cfg.firstOverlayLine ∨ hardwareY > cfg.lastOverlayLine →
      fillRefreshRow48 cfg hardwareY refreshBuf refreshRow brightnessShifts = refreshRow ∧
      fillRefreshRow24 cfg hardwareY refreshBuf refreshRow brightnessShifts = refreshRow) := by
  refine ⟨fun i hkey => ?_, fun i hkey => ?_, fun hline => ⟨?_, ?_⟩⟩
  · unfold fillRefreshRow48
    split
    · rfl
    · split
      · rfl
      · simp only []
        split
        · rw [if_pos ⟨hchroma, hkey⟩]
        · rfl
  · unfold fillRefreshRow24
    split
    · rfl
    · split
      · rfl
      · simp only []
        split
        · rw [if_pos ⟨hchroma, hkey⟩]
        · rfl
  · unfold fillRefreshRow48
    split
    · rfl
    · rw [if_pos ⟨hchroma, hline⟩]
  · unfold fillRefreshRow24
    split
    · rfl
    · rw [if_pos ⟨hchroma, hline⟩]

/-- Witness for C6: a keyed pixel passes through unchanged and an
out-of-range line leaves the row unchanged, on concrete data. -/
theorem chroma_key_transparent_and_line_bail_witness :
    fillRefreshRow24
      { matrixWidth := 4, backgroundBrightness := 200, ccEnabled := false,
        chromaKeyEnabled := true, chromaKeyColor := ⟨1, 2, 3⟩, firstOverlayLine := 0,
        lastOverlayLine := 100, lut := fun j => j, narrowSource := true }
      2 (fun _ => ⟨1, 2, 3⟩) (fun j => ⟨j, 5, 6⟩) 0 1 = ⟨1, 5, 6⟩ ∧
    fillRefreshRow48
      { matrixWidth := 4, backgroundBrightness := 200, ccEnabled := false,
        chromaKeyEnabled := true, chromaKeyColor := ⟨1, 2, 3⟩, firstOverlayLine := 3,
        lastOverlayLine := 100, lut := fun j => j, narrowSource := true }
      2 (fun _ => ⟨7, 7, 7⟩) (fun j => ⟨j, 5, 6⟩) 0 = (fun j => ⟨j, 5, 6⟩) := by
  constructor
  · exact (chroma_key_transparent_and_line_bail _ 2 (fun _ => ⟨1, 2, 3⟩)
      (fun j => ⟨j, 5, 6⟩) 0 rfl).2.1 1 rfl
  · exact ((chroma_key_transparent_and_line_bail _ 2 (fun _ => ⟨7, 7, 7⟩)
      (fun j => ⟨j, 5, 6⟩) 0 rfl).2.2 (Or.inl (by decide))).1

/-- C5: at `backgroundBrightness == 255`, for an in-range column whose source
pixel is not chroma-skipped, both overloads assign the corrected pixel — the
value held by the source-typed `RGB newPixel` variable, converted to the
destination channel width where the row is narrower — without any dependence
on the prior output-row contents: the right-hand sides below never mention
`refreshRow`.  In the `rgb48[]` overload the value
passes through the blend expression, which at full brightness is exact.  In
particular, with color correction disabled and zero brightness shift the
output pixel equals the source pixel exactly (width-matched cases). -/
theorem brightness255_assigns_corrected_pixel (cfg : BGConfig) (hardwareY : Nat)
    (refreshBuf refreshRow : Nat → Pix) (brightnessShifts i : Nat)
    (hb : cfg.backgroundBrightness = 255)
    (hi : i < cfg.matrixWidth)
    (hline : ¬(cfg.chromaKeyEnabled ∧
      (hardwareY < cfg.firstOverlayLine ∨ hardwareY > cfg.lastOverlayLine)))
    (hskip : ¬(cfg.chromaKeyEnabled ∧
      refreshBuf (hardwareY * cfg.matrixWidth + i) = cfg.chromaKeyColor)) :
    (fillRefreshRow24 cfg hardwareY refreshBuf refreshRow brightnessShifts i =
      (if cfg.narrowSource then
        (if cfg.ccEnabled then
          newPixelCC cfg brightnessShifts (refreshBuf (hardwareY * cfg.matrixWidth + i))
        else newPixelNoCC cfg brightnessShifts (refreshBuf (hardwareY * cfg.matrixWidth + i)))
      else
        to24 (if cfg.ccEnabled then
                newPixelCC cfg brightnessShifts (refreshBuf (hardwareY * cfg.matrixWidth + i))
              else newPixelNoCC cfg brightnessShifts (refreshBuf (hardwareY * cfg.matrixWidth + i))))) ∧
    (fillRefreshRow48 cfg hardwareY refreshBuf refreshRow brightnessShifts i =
      (if cfg.ccEnabled then
        newPixelCC cfg brightnessShifts (refreshBuf (hardwareY * cfg.matrixWidth + i))
      else newPixelNoCC cfg brightnessShifts (refreshBuf (hardwareY * cfg.matrixWidth + i)))) ∧
    (cfg.ccEnabled = false → brightnessShifts = 0 →
      ((cfg.narrowSource = true →
        (refreshBuf (hardwareY * cfg.matrixWidth + i)).red ≤ 255 →
        (refreshBuf (hardwareY * cfg.matrixWidth + i)).green ≤ 255 →
        (refreshBuf (hardwareY * cfg.matrixWidth + i)).blue ≤ 255 →
        fillRefreshRow24 cfg hardwareY refreshBuf refreshRow brightnessShifts i =
          refreshBuf (hardwareY * cfg.matrixWidth + i) ∧
        fillRefreshRow48 cfg hardwareY refreshBuf refreshRow brightnessShifts i =
          refreshBuf (hardwareY * cfg.matrixWidth + i)) ∧
      (cfg.narrowSource = false →
        (refreshBuf (hardwareY * cfg.matrixWidth + i)).red ≤ 65535 →
        (refreshBuf (hardwareY * cfg.matrixWidth + i)).green ≤ 65535 →
        (refreshBuf (hardwareY * cfg.matrixWidth + i)).blue ≤ 65535 →
        fillRefreshRow48 cfg hardwareY refreshBuf refreshRow brightnessShifts i =
          refreshBuf (hardwareY * cfg.matrixWidth + i)))) := by
  have h24 : fillRefreshRow24 cfg hardwareY refreshBuf refreshRow brightnessShifts i =
      (if cfg.narrowSource then
        (if cfg.ccEnabled then
          newPixelCC cfg brightnessShifts (refreshBuf (hardwareY * cfg.matrixWidth + i))
        else newPixelNoCC cfg brightnessShifts (refreshBuf (hardwareY * cfg.matrixWidth + i)))
      else
        to24 (if cfg.ccEnabled then
                newPixelCC cfg brightnessShifts (refreshBuf (hardwareY * cfg.matrixWidth + i))
              else newPixelNoCC cfg brightnessShifts (refreshBuf (hardwareY * cfg.matrixWidth + i)))) := by
    unfold fillRefreshRow24
    simp only [hb]
    rw [if_neg (by norm_num : ¬(255 = 0)), if_neg hline]
    rw [if_pos hi, if_neg hskip, if_pos trivial]
  have h48 : fillRefreshRow48 cfg hardwareY refreshBuf refreshRow brightnessShifts i =
      (if cfg.ccEnabled then
        newPixelCC cfg brightnessShifts (refreshBuf (hardwareY * cfg.matrixWidth + i))
      else newPixelNoCC cfg brightnessShifts (refreshBuf (hardwareY * cfg.matrixWidth + i))) := by
    unfold fillRefreshRow48
    simp only [hb]
    rw [if_neg (by norm_num : ¬(255 = 0)), if_neg hline]
    rw [if_pos hi, if_neg hskip]
    by_cases hcc : cfg.ccEnabled
    · rw [if_pos hcc, if_pos hcc, blendPixDiv_full]
    · rw [if_neg hcc, if_neg hcc, blendPix_full]
  refine ⟨h24, h48, ?_⟩
  intro hccf hsh
  subst hsh
  constructor
  · intro hn hr hg hbb
    have hid := newPixelNoCC_id_narrow cfg _ hn hr hg hbb
    constructor
    · rw [h24]
      simp [hccf, hn, hid]
    · rw [h48]
      simp [hccf, hid]
  · intro hn hr hg hbb
    have hid := newPixelNoCC_id_wide cfg _ hn hr hg hbb
    rw [h48]
    simp [hccf, hid]

/-- Witness for C5: a 2-wide narrow layer at full brightness, color
correction off, zero shift: the output pixel is the source pixel `(10, 20,
30)` exactly, whatever the prior output row held. -/
theorem brightness255_assigns_corrected_pixel_witness :
    fillRefreshRow24
      { matrixWidth := 2, backgroundBrightness := 255, ccEnabled := false,
        chromaKeyEnabled := false, chromaKeyColor := zeroPix, firstOverlayLine := 0,
        lastOverlayLine := 100, lut := fun j => j, narrowSource := true }
      0 (fun _ => ⟨10, 20, 30⟩) (fun _ => ⟨200, 200, 200⟩) 0 1 = ⟨10, 20, 30⟩ ∧
    fillRefreshRow48
      { matrixWidth := 2, backgroundBrightness := 255, ccEnabled := false,
        chromaKeyEnabled := false, chromaKeyColor := zeroPix, firstOverlayLine := 0,
        lastOverlayLine := 100, lut := fun j => j, narrowSource := false }
      0 (fun _ => ⟨1000, 2000, 3000⟩) (fun _ => ⟨4, 4, 4⟩) 0 1 = ⟨1000, 2000, 3000⟩ := by
  constructor
  · exact (((brightness255_assigns_corrected_pixel _ 0 (fun _ => ⟨10, 20, 30⟩)
      (fun _ => ⟨200, 200, 200⟩) 0 1 rfl (by decide) (by decide) (by decide)).2.2
        rfl rfl).1 rfl (by decide) (by decide) (by decide)).1
  · exact ((brightness255_assigns_corrected_pixel _ 0 (fun _ => ⟨1000, 2000, 3000⟩)
      (fun _ => ⟨4, 4, 4⟩) 0 1 rfl (by decide) (by decide) (by decide)).2.2
        rfl rfl).2 rfl (by decide) (by decide) (by decide)

/-- Shared helper: the rotation mapping reads only the configuration fields,
so replacing the draw buffer leaves it unchanged. -/
theorem rotateCoords_setBuffer (layer : DrawLayer) (f : Int → Pix) (x y : Int) :
    rotateCoords { layer with drawBuffer := f } x y = rotateCoords layer x y := rfl

/-- C7: for every configured rotation and in-bounds logical coordinate,
mapping to the physical coordinate and back recovers the coordinate exactly,
and (since `drawPixel` and `readPixel` contain the identical mapping block)
`drawPixel(x, y, c)` followed by `readPixel(x, y)` returns `c`. -/
theorem rotation_roundtrip_draw_read (layer : DrawLayer) (x y : Int) (color : Pix)
    (hx0 : 0 ≤ x) (hx1 : x < (layer.localWidth : Int))
    (hy0 : 0 ≤ y) (hy1 : y < (layer.localHeight : Int)) :
    unrotateCoords layer (rotateCoords layer x y) = (x, y) ∧
    readPixel (drawPixel layer x y color) x y = color := by
  have hnb : ¬(x < 0 ∨ y < 0 ∨ x ≥ (layer.localWidth : Int) ∨
      y ≥ (layer.localHeight : Int)) := by omega
  constructor
  · unfold unrotateCoords rotateCoords
    cases layer.layerRotation <;> simp
  · unfold drawPixel
    rw [if_neg hnb]
    unfold readPixel
    simp only [loadPixelToDrawBuffer]
    rw [if_neg hnb]
    unfold readPixelFromDrawBuffer
    simp [rotateCoords_setBuffer, Function.update_same]

/-- Witness for C7 on a concrete rotated 4×3 layer. -/
theorem rotation_roundtrip_draw_read_witness :
    readPixel
      (drawPixel
        { matrixWidth := 4, matrixHeight := 3, localWidth := 3, localHeight := 4,
          layerRotation := RotationMode.rotation90, drawBuffer := fun _ => zeroPix }
        1 2 ⟨9, 8, 7⟩)
      1 2 = ⟨9, 8, 7⟩ := by
  exact (rotation_roundtrip_draw_read
    { matrixWidth := 4, matrixHeight := 3, localWidth := 3, localHeight := 4,
      layerRotation := RotationMode.rotation90, drawBuffer := fun _ => zeroPix }
    1 2 ⟨9, 8, 7⟩ (by decide) (by decide) (by decide) (by decide)).2

/-- C8: out-of-bounds logical coordinates make `drawPixel` a no-op on the
whole layer state (in particular on the frame buffer) and make `readPixel`
return the zero pixel without touching the buffers. -/
theorem oob_write_noop_read_zero (layer : DrawLayer) (x y : Int) (color : Pix)
    (h : x < 0 ∨ y < 0 ∨ x ≥ (layer.localWidth : Int) ∨ y ≥ (layer.localHeight : Int)) :
    drawPixel layer x y color = layer ∧ readPixel layer x y = zeroPix := by
  constructor
  · unfold drawPixel
    rw [if_pos h]
  · unfold readPixel
    rw [if_pos h]

/-- Witness for C8 at a concrete coordinate left of the layer. -/
theorem oob_write_noop_read_zero_witness :
    drawPixel
      { matrixWidth := 4, matrixHeight := 3, localWidth := 4, localHeight := 3,
        layerRotation := RotationMode.rotation0, drawBuffer := fun _ => ⟨1, 1, 1⟩ }
      (-1) 2 ⟨9, 8, 7⟩ =
      { matrixWidth := 4, matrixHeight := 3, localWidth := 4, localHeight := 3,
        layerRotation := RotationMode.rotation0, drawBuffer := fun _ => ⟨1, 1, 1⟩ } ∧
    readPixel
      { matrixWidth := 4, matrixHeight := 3, localWidth := 4, localHeight := 3,
        layerRotation := RotationMode.rotation0, drawBuffer := fun _ => ⟨1, 1, 1⟩ }
      (-1) 2 = zeroPix := by
  exact oob_write_noop_read_zero _ (-1) 2 ⟨9, 8, 7⟩ (by decide)

/-- Shared helper: membership in the loop unrolling `intRangeAux`. -/
theorem mem_intRangeAux {a i : Int} {n : Nat} :
    i ∈ intRangeAux a n ↔ a ≤ i ∧ i < a + n := by
  induction n generalizing a with
  | zero =>
      simp only [intRangeAux, List.not_mem_nil, false_iff]
      omega
  | succ n ih =>
      simp only [intRangeAux, List.mem_cons, ih]
      omega

/-- Shared helper: membership in the inclusive loop range. -/
theorem mem_intRange {a b i : Int} : i ∈ intRange a b ↔ a ≤ i ∧ i ≤ b := by
  unfold intRange
  rw [mem_intRangeAux]
  omega

/-- Shared helper: a fold of same-color hardware-pixel stores along
coordinates `(fx i, fy i)` for `i` in a list only rewrites the draw buffer,
and rewrites exactly the linear indices hit by the list. -/
theorem foldl_loadPixel_coords (color : Pix) (fx fy : Int → Int) (l : List Int)
    (layer : DrawLayer) :
    l.foldl (fun s i => loadPixelToDrawBuffer s (fx i) (fy i) color) layer =
      { layer with drawBuffer := fun k =>
          if ∃ i ∈ l, fy i * (layer.matrixWidth : Int) + fx i = k then color
          else layer.drawBuffer k } := by
  induction l generalizing layer with
  | nil =>
      refine (congrArg (fun f => { layer with drawBuffer := f }) ?_)
      funext k
      rw [if_neg]
      rintro ⟨i, hi, hw⟩
      exact absurd hi (List.not_mem_nil i)
  | cons j rest ih =>
      rw [List.foldl_cons, ih]
      simp only [loadPixelToDrawBuffer]
      refine (congrArg (fun f => { layer with drawBuffer := f }) ?_)
      funext k
      by_cases hrest : ∃ i ∈ rest, fy i * (layer.matrixWidth : Int) + fx i = k
      · rw [if_pos hrest, if_pos ?_]
        obtain ⟨i, hi, hw⟩ := hrest
        exact ⟨i, List.mem_cons_of_mem j hi, hw⟩
      · rw [if_neg hrest, Function.update_apply]
        simp only [List.exists_mem_cons_iff]
        by_cases hj : fy j * (layer.matrixWidth : Int) + fx j = k
        · rw [if_pos hj.symm, if_pos (Or.inl hj)]
        · rw [if_neg (fun hkj => hj hkj.symm), if_neg ?_]
          rintro (h | h)
          · exact hj h
          · exact hrest h

/-- Shared helper: a fold of `drawPixel` over a list of logical x-coordinates
at a fixed logical row only rewrites the draw buffer, hitting exactly the
rotated images of the in-bounds coordinates. -/
theorem foldl_drawPixel (color : Pix) (y : Int) (xs : List Int) (layer : DrawLayer) :
    xs.foldl (fun s x => drawPixel s x y color) layer =
      { layer with drawBuffer := fun k =>
          if ∃ x ∈ xs, ¬(x < 0 ∨ y < 0 ∨ x ≥ (layer.localWidth : Int) ∨
              y ≥ (layer.localHeight : Int)) ∧
            (rotateCoords layer x y).2 * (layer.matrixWidth : Int) +
              (rotateCoords layer x y).1 = k
          then color else layer.drawBuffer k } := by
  induction xs generalizing layer with
  | nil =>
      refine (congrArg (fun f => { layer with drawBuffer := f }) ?_)
      funext k
      rw [if_neg]
      rintro ⟨x, hx, hw⟩
      exact absurd hx (List.not_mem_nil x)
  | cons j rest ih =>
      rw [List.foldl_cons]
      by_cases hb : j < 0 ∨ y < 0 ∨ j ≥ (layer.localWidth : Int) ∨
          y ≥ (layer.localHeight : Int)
      · have hstep : drawPixel layer j y color = layer := by
          unfold drawPixel
          rw [if_pos hb]
        rw [hstep, ih]
        refine (congrArg (fun f => { layer with drawBuffer := f }) ?_)
        funext k
        refine if_congr ?_ rfl rfl
        rw [List.exists_mem_cons_iff]
        constructor
        · exact Or.inr
        · rintro (⟨hnb, _⟩ | h)
          · exact absurd hb hnb
          · exact h
      · have hstep : drawPixel layer j y color =
            { layer with drawBuffer := (Function.update layer.drawBuffer
                ((rotateCoords layer j y).2 * (layer.matrixWidth : Int) +
                  (rotateCoords layer j y).1) color) } := by
          unfold drawPixel
          rw [if_neg hb]
          rfl
        rw [hstep, ih]
        simp only [rotateCoords_setBuffer]
        refine (congrArg (fun f => { layer with drawBuffer := f }) ?_)
        funext k
        by_cases hrest : ∃ x ∈ rest, ¬(x < 0 ∨ y < 0 ∨ x ≥ (layer.localWidth : Int) ∨
            y ≥ (layer.localHeight : Int)) ∧
            (rotateCoords layer x y).2 * (layer.matrixWidth : Int) +
              (rotateCoords layer x y).1 = k
        · rw [if_pos hrest, if_pos ?_]
          obtain ⟨x, hx, hw⟩ := hrest
          exact ⟨x, List.mem_cons_of_mem j hx, hw⟩
        · rw [if_neg hrest, Function.update_apply]
          simp only [List.exists_mem_cons_iff]
          by_cases hj : (rotateCoords layer j y).2 * (layer.matrixWidth : Int) +
              (rotateCoords layer j y).1 = k
          · rw [if_pos hj.symm, if_pos (Or.inl ⟨hb, hj⟩)]
          · rw [if_neg (fun hkj => hj hkj.symm), if_neg ?_]
            rintro (⟨_, h⟩ | h)
            · exact hj h
            · exact hrest h

/-- C10: `drawFastHLine(x0, x1, y, color)` changes the layer exactly as
`drawPixel(x, y, color)` applied at every `x` from `min(x0, x1)` to
`max(x0, x1)` does: the hardware-line fast path applies the same rotation
mapping and the same clipping as the single-pixel choke point, for every
rotation and all (also out-of-bounds) endpoints. -/
theorem drawFastHLine_eq_drawPixelRange (layer : DrawLayer) (x0 x1 y : Int)
    (color : Pix) :
    drawFastHLine layer x0 x1 y color = drawPixelRange layer x0 x1 y color := by
  have hsorted : ∀ a b : Int,
      drawFastHLineSorted layer a b y color =
        (intRange a b).foldl (fun s x => drawPixel s x y color) layer := by
    intro a b
    rw [foldl_drawPixel]
    unfold drawFastHLineSorted
    by_cases hoob : b < 0 ∨ a ≥ (layer.localWidth : Int) ∨ y < 0 ∨
        y ≥ (layer.localHeight : Int)
    · rw [if_pos hoob]
      have hfun : (fun k =>
          if ∃ x ∈ intRange a b, ¬(x < 0 ∨ y < 0 ∨ x ≥ (layer.localWidth : Int) ∨
              y ≥ (layer.localHeight : Int)) ∧
            (rotateCoords layer x y).2 * (layer.matrixWidth : Int) +
              (rotateCoords layer x y).1 = k
          then color else layer.drawBuffer k) = layer.drawBuffer := by
        funext k
        rw [if_neg]
        rintro ⟨x, hx, hnb, _⟩
        rw [mem_intRange] at hx
        omega
      exact (congrArg (fun f => { layer with drawBuffer := f }) hfun).symm
    · rw [if_neg hoob]
      unfold drawFastHLineClipped
      set a2 := if a < 0 then 0 else a with ha2
      set b2 := if b ≥ (layer.localWidth : Int) then (layer.localWidth : Int) - 1 else b
        with hb2
      cases hrot : layer.layerRotation
      · refine Eq.trans (foldl_loadPixel_coords color (fun i => i) (fun _ => y)
          (intRange a2 b2) layer) ?_
        rw [← hrot]
        refine congrArg (fun f => { layer with drawBuffer := f }) ?_
        funext k
        refine if_congr ?_ rfl rfl
        simp only [rotateCoords, hrot]
        constructor
        · rintro ⟨i, hm, hidx⟩
          rw [mem_intRange] at hm
          exact ⟨i, mem_intRange.mpr (by omega), by omega, hidx⟩
        · rintro ⟨x, hm, hnb, hidx⟩
          rw [mem_intRange] at hm
          exact ⟨x, mem_intRange.mpr (by omega), hidx⟩
      · refine Eq.trans (foldl_loadPixel_coords color
          (fun _ => (layer.matrixWidth : Int) - 1 - y) (fun i => i)
          (intRange a2 b2) layer) ?_
        rw [← hrot]
        refine congrArg (fun f => { layer with drawBuffer := f }) ?_
        funext k
        refine if_congr ?_ rfl rfl
        simp only [rotateCoords, hrot]
        constructor
        · rintro ⟨i, hm, hidx⟩
          rw [mem_intRange] at hm
          exact ⟨i, mem_intRange.mpr (by omega), by omega, hidx⟩
        · rintro ⟨x, hm, hnb, hidx⟩
          rw [mem_intRange] at hm
          exact ⟨x, mem_intRange.mpr (by omega), hidx⟩
      · refine Eq.trans (foldl_loadPixel_coords color (fun i => i)
          (fun _ => (layer.matrixHeight : Int) - 1 - y)
          (intRange ((layer.matrixWidth : Int) - 1 - b2)
            ((layer.matrixWidth : Int) - 1 - a2)) layer) ?_
        rw [← hrot]
        refine congrArg (fun f => { layer with drawBuffer := f }) ?_
        funext k
        refine if_congr ?_ rfl rfl
        simp only [rotateCoords, hrot]
        constructor
        · rintro ⟨i, hm, hidx⟩
          rw [mem_intRange] at hm
          refine ⟨(layer.matrixWidth : Int) - 1 - i, mem_intRange.mpr (by omega),
            by omega, ?_⟩
          rw [show (layer.matrixWidth : Int) - 1 -
            ((layer.matrixWidth : Int) - 1 - i) = i from by ring]
          exact hidx
        · rintro ⟨x, hm, hnb, hidx⟩
          rw [mem_intRange] at hm
          exact ⟨(layer.matrixWidth : Int) - 1 - x, mem_intRange.mpr (by omega), hidx⟩
      · refine Eq.trans (foldl_loadPixel_coords color (fun _ => y) (fun i => i)
          (intRange ((layer.matrixHeight : Int) - 1 - b2)
            ((layer.matrixHeight : Int) - 1 - a2)) layer) ?_
        rw [← hrot]
        refine congrArg (fun f => { layer with drawBuffer := f }) ?_
        funext k
        refine if_congr ?_ rfl rfl
        simp only [rotateCoords, hrot]
        constructor
        · rintro ⟨i, hm, hidx⟩
          rw [mem_intRange] at hm
          refine ⟨(layer.matrixHeight : Int) - 1 - i, mem_intRange.mpr (by omega),
            by omega, ?_⟩
          rw [show (layer.matrixHeight : Int) - 1 -
            ((layer.matrixHeight : Int) - 1 - i) = i from by ring]
          exact hidx
        · rintro ⟨x, hm, hnb, hidx⟩
          rw [mem_intRange] at hm
          exact ⟨(layer.matrixHeight : Int) - 1 - x, mem_intRange.mpr (by omega), hidx⟩
  rcases le_or_lt x0 x1 with h | h
  · unfold drawFastHLine
    rw [if_neg (not_lt.mpr h), hsorted x0 x1]
    unfold drawPixelRange
    rw [min_eq_left h, max_eq_right h]
  · unfold drawFastHLine
    rw [if_pos h, hsorted x1 x0]
    unfold drawPixelRange
    rw [min_eq_right h.le, max_eq_left h.le]
